import Mathlib

/-!
Verification development for the single-file AI agent (`src/main.py`).

The agent couples a tool-calling orchestration loop (`AIAgent.chat`) with three
local filesystem tools (`_read_file`, `_list_files`, `_edit_file`) dispatched by
`_execute_tool`.  This file gives a shallow embedding of those functions and
proves the specification's claims about them.

Modelling choices:
* A filesystem path is represented by its list of components (`Path`); the
  Python string operations on paths correspond to list operations:
  `os.path.dirname` is `List.dropLast`, `os.path.join path item` is
  `path ++ [item]`, and the path `"."` (the current directory) is `[]`.
* The filesystem state is a finite association of file paths to string
  contents plus the list of existing directories.  OS-level failures of the
  primitives (`open` for reading or writing, `os.listdir`, `os.makedirs`)
  are modelled by `Except PyErr`, mirroring the exceptions CPython raises:
  opening a missing file raises `FileNotFoundError`, opening a directory
  raises `IsADirectoryError`, opening (for reading or writing) a path one
  of whose ancestors exists as a regular file raises `NotADirectoryError`
  (ENOTDIR), listing a non-directory raises `NotADirectoryError`, writing
  under a missing parent raises `FileNotFoundError`, and
  `os.makedirs(..., exist_ok=True)` raises `FileExistsError` when a
  component exists as a regular file.
* Python `str.replace` / the `in` substring test are embedded as structural
  recursions over the character list (`replaceChars`, `containsSub`): both
  scan left to right and treat occurrences without overlap, exactly as
  CPython does for a non-empty pattern (the agent only calls them with
  non-empty `old_text`).
-/

namespace Agent

/-- A filesystem path, as its list of components (`"a/b"` is `["a", "b"]`,
the current directory `"."` is `[]`). -/
abbrev Path := List String

/-- Render a path the way it appears inside the Python format strings. -/
def pathStr (p : Path) : String := String.intercalate "/" p

/-- The OS-level exceptions the Python primitives can raise. -/
inductive PyErr where
  | fileNotFound (p : Path)
  | isADirectory (p : Path)
  | notADirectory (p : Path)
  | fileExists (p : Path)
  deriving DecidableEq

/-- Text of `str(e)` for an OS-level exception, as interpolated by the
`except` branches of `main.py`. -/
def PyErr.msg : PyErr → String
  | .fileNotFound p => "[Errno 2] No such file or directory: \x27" ++ pathStr p ++ "\x27"
  | .isADirectory p => "[Errno 21] Is a directory: \x27" ++ pathStr p ++ "\x27"
  | .notADirectory p => "[Errno 20] Not a directory: \x27" ++ pathStr p ++ "\x27"
  | .fileExists p => "[Errno 17] File exists: \x27" ++ pathStr p ++ "\x27"

/-- The filesystem state: regular files with their text contents, and the
existing directories.  The root/current directory `[]` is expected to be
among `dirs` (see `FS.wf`). -/
structure FS where
  files : List (Path × String)
  dirs : List Path
  deriving DecidableEq

/-- Content of the regular file at `p`, if one exists (first binding wins). -/
def lookupFileList : List (Path × String) → Path → Option String
  | [], _ => none
  | (q, c) :: rest, p => if q = p then some c else lookupFileList rest p

/-- Overwrite the binding of `p` (or append a new one) with content `c`. -/
def setFileList : List (Path × String) → Path → String → List (Path × String)
  | [], p, c => [(p, c)]
  | (q, c0) :: rest, p, c =>
    if q = p then (p, c) :: rest else (q, c0) :: setFileList rest p c

/-- Content of the regular file at `p` in `fs`, if one exists. -/
def FS.lookupFile (fs : FS) (p : Path) : Option String := lookupFileList fs.files p

/-- Model of `os.path.isfile`. -/
def FS.isFile (fs : FS) (p : Path) : Bool := (fs.lookupFile p).isSome

/-- Model of `os.path.isdir`. -/
def FS.isDir (fs : FS) (p : Path) : Bool := decide (p ∈ fs.dirs)

/-- Model of `os.path.exists`. -/
def FS.pathExists (fs : FS) (p : Path) : Bool := fs.isFile p || fs.isDir p

/-- The chain of nonempty ancestors built while descending from `done` along
the components `rest`: `chainFrom [] ["a", "b"] = [["a"], ["a", "b"]]`. -/
def chainFrom (done : Path) : List String → List Path
  | [] => []
  | c :: cs => (done ++ [c]) :: chainFrom (done ++ [c]) cs

/-- Whether some proper ancestor of `p` exists as a regular file — the
situation in which POSIX `open` fails with ENOTDIR (`NotADirectoryError`). -/
def FS.fileAncestor (fs : FS) (p : Path) : Bool :=
  (chainFrom [] p.dropLast).any fun q => fs.isFile q

/-- Model of `open(path, "r", encoding="utf-8")` followed by `f.read()`:
yields the content of a regular file; a directory raises
`IsADirectoryError`, a path with a regular file among its ancestors raises
`NotADirectoryError` (ENOTDIR), and otherwise a missing path raises
`FileNotFoundError`. -/
def FS.openRead (fs : FS) (p : Path) : Except PyErr String :=
  match fs.lookupFile p with
  | some c => .ok c
  | none =>
    if fs.isDir p then .error (.isADirectory p)
    else if fs.fileAncestor p then .error (.notADirectory p)
    else .error (.fileNotFound p)

/-- Model of `open(path, "w", encoding="utf-8")` followed by `f.write(content)`:
fails on a directory (`IsADirectoryError`), on a path with a regular file
among its ancestors (`NotADirectoryError`), and on a missing parent
directory (`FileNotFoundError`). -/
def FS.openWrite (fs : FS) (p : Path) (content : String) : Except PyErr FS :=
  if fs.isDir p then .error (.isADirectory p)
  else if fs.isDir p.dropLast then .ok ⟨setFileList fs.files p content, fs.dirs⟩
  else if fs.fileAncestor p then .error (.notADirectory p)
  else .error (.fileNotFound p)

/-- Names of the immediate children of directory `p`: the last component of
every file or directory path of the form `p ++ [name]`. -/
def FS.children (fs : FS) (p : Path) : List String :=
  (fs.files.map Prod.fst ++ fs.dirs).filterMap fun q =>
    if q.dropLast = p then q.getLast? else none

/-- Model of `os.listdir`. -/
def FS.listdir (fs : FS) (p : Path) : Except PyErr (List String) :=
  if fs.isDir p then .ok (fs.children p)
  else if fs.isFile p then .error (.notADirectory p)
  else .error (.fileNotFound p)

/-- Worker for `os.makedirs(..., exist_ok=True)`: descend along `rest`,
creating each missing directory, and fail with `FileExistsError` when a
component already exists as a regular file. -/
def mkdirAll : FS → Path → List String → Except PyErr FS
  | fs, _, [] => .ok fs
  | fs, done, c :: cs =>
    let q := done ++ [c]
    if fs.isFile q then .error (.fileExists q)
    else if fs.isDir q then mkdirAll fs q cs
    else mkdirAll ⟨fs.files, fs.dirs ++ [q]⟩ q cs

/-- Model of `os.makedirs(p, exist_ok=True)`. -/
def FS.makedirs (fs : FS) (p : Path) : Except PyErr FS := mkdirAll fs [] p

/-- Well-formedness of a filesystem state: the root exists, bindings are
unique, no path is both a file and a directory, every file hangs under an
existing directory, and directories are closed under parents. -/
def FS.wf (fs : FS) : Prop :=
  [] ∈ fs.dirs ∧
  (fs.files.map Prod.fst).Nodup ∧
  fs.dirs.Nodup ∧
  (∀ p ∈ fs.files.map Prod.fst, p ∉ fs.dirs ∧ p ≠ [] ∧ p.dropLast ∈ fs.dirs) ∧
  (∀ d ∈ fs.dirs, d.dropLast ∈ fs.dirs)

instance (fs : FS) : Decidable fs.wf := by
  unfold FS.wf; infer_instance

/-- Code-point lexicographic comparison of character lists: embeds the string
comparison Python's `sorted` orders by. -/
def charListLe : List Char → List Char → Bool
  | [], _ => true
  | _ :: _, [] => false
  | a :: as, b :: bs =>
    if a.toNat < b.toNat then true
    else if b.toNat < a.toNat then false
    else charListLe as bs

/-- Code-point lexicographic `≤` on strings (Python's string comparison);
proved equivalent to the standard `≤` on `String` in `strLe_iff`. -/
def strLe (a b : String) : Bool := charListLe a.data b.data

/-- Whether `pat` is a prefix of `s` (on character lists). -/
def listIsPre : List Char → List Char → Bool
  | [], _ => true
  | _ :: _, [] => false
  | x :: xs, y :: ys => x == y && listIsPre xs ys

/-- Whether `pat` occurs as a contiguous substring of `s`; embeds Python's
`pat in s` for a non-empty `pat`. -/
def containsSub (pat : List Char) : List Char → Bool
  | [] => listIsPre pat []
  | c :: rest => listIsPre pat (c :: rest) || containsSub pat rest

/-- Worker for `replaceChars`: scan left to right; at a position where the
non-empty `old` is a prefix, emit `new` and skip past the occurrence, else
keep the character.  Each step consumes at least one character, so `fuel`
initialised to the length of the text bounds the scan; the zero-fuel arm is
never reached from `replaceChars`. -/
def replaceFuel (old new : List Char) : Nat → List Char → List Char
  | _, [] => []
  | 0, s => s
  | fuel + 1, c :: rest =>
    if listIsPre old (c :: rest) && !old.isEmpty then
      new ++ replaceFuel old new fuel (rest.drop (old.length - 1))
    else
      c :: replaceFuel old new fuel rest

/-- Replace every (leftmost, non-overlapping) occurrence of `old` by `new`;
embeds Python's `s.replace(old, new)` for a non-empty `old`. -/
def replaceChars (old new s : List Char) : List Char := replaceFuel old new s.length s

/-- Python's `old in content` on strings (for the non-empty `old_text`). -/
def pyContains (content old : String) : Bool := containsSub old.data content.data

/-- Python's `content.replace(old, new)` on strings. -/
def pyReplace (content old new : String) : String := ⟨replaceChars old.data new.data content.data⟩

/-- Embedding of `AIAgent._read_file`.  The filesystem is threaded through
explicitly so that absence of writes is a provable statement. -/
def read_file (path : Path) (fs : FS) : String × FS :=
  match fs.openRead path with
  | .ok content => ("文件 " ++ pathStr path ++ " 的内容:\n" ++ content, fs)
  | .error (.fileNotFound _) => ("文件未找到: " ++ pathStr path, fs)
  | .error e => ("读取文件时出错: " ++ e.msg, fs)

/-- Embedding of `AIAgent._list_files`: guard on existence, sort the listing,
tag each entry by `os.path.isdir`, and special-case the empty listing. -/
def list_files (path : Path) (fs : FS) : String × FS :=
  if fs.pathExists path = false then ("路径未找到: " ++ pathStr path, fs)
  else
    match fs.listdir path with
    | .error e => ("列出文件时出错: " ++ e.msg, fs)
    | .ok names =>
      let items := (names.insertionSort (strLe · ·)).map fun item =>
        if fs.isDir (path ++ [item]) then "[目录]  " ++ item ++ "/" else "[文件] " ++ item
      if items.isEmpty then ("空目录: " ++ pathStr path, fs)
      else (pathStr path ++ " 的内容:\n" ++ String.intercalate "\n" items, fs)

/-- Embedding of `AIAgent._edit_file`.  Replace mode when the path exists and
`old_text` is non-empty; otherwise create mode (make parent directories, write
`new_text`).  Exceptions of the primitives land in the `except` branch, which
returns an error string; directories already created by `os.makedirs` persist
when the subsequent write fails. -/
def edit_file (path : Path) (old_text new_text : String) (fs : FS) : String × FS :=
  if fs.pathExists path && !(old_text == "") then
    match fs.openRead path with
    | .error e => ("编辑文件时出错: " ++ e.msg, fs)
    | .ok content =>
      if pyContains content old_text = false then
        ("文件中未找到文本: " ++ old_text, fs)
      else
        match fs.openWrite path (pyReplace content old_text new_text) with
        | .error e => ("编辑文件时出错: " ++ e.msg, fs)
        | .ok fs2 => ("成功编辑 " ++ pathStr path, fs2)
  else
    match (if path.dropLast.isEmpty then .ok fs else fs.makedirs path.dropLast) with
    | .error e => ("编辑文件时出错: " ++ e.msg, fs)
    | .ok fs1 =>
      match fs1.openWrite path new_text with
      | .error e => ("编辑文件时出错: " ++ e.msg, fs1)
      | .ok fs2 => ("成功创建 " ++ pathStr path, fs2)

/-- The tool arguments the dispatcher reads out of `tool_input`: the code
accesses exactly the keys `path`, `old_text` and `new_text`, so only their
presence and values matter.  A missing required key raises `KeyError`. -/
structure ToolArgs where
  path : Option Path := none
  old_text : Option String := none
  new_text : Option String := none
  deriving DecidableEq

/-- Text of `str(KeyError(k))`: the key in single quotes. -/
def keyErrMsg (k : String) : String := "\x27" ++ k ++ "\x27"

/-- Embedding of `AIAgent._execute_tool`: dispatch on the tool name; a
`KeyError` from a missing required argument is caught by the surrounding
`try` and rendered as an error string; unknown names yield the
`未知工具` string.  Total by construction: no exception escapes. -/
def execute_tool (tool_name : String) (tool_input : ToolArgs) (fs : FS) : String × FS :=
  if tool_name == "read_file" then
    match tool_input.path with
    | some p => read_file p fs
    | none => ("执行 " ++ tool_name ++ " 时出错: " ++ keyErrMsg "path", fs)
  else if tool_name == "list_files" then
    list_files (tool_input.path.getD []) fs
  else if tool_name == "edit_file" then
    match tool_input.path with
    | none => ("执行 " ++ tool_name ++ " 时出错: " ++ keyErrMsg "path", fs)
    | some p =>
      match tool_input.new_text with
      | none => ("执行 " ++ tool_name ++ " 时出错: " ++ keyErrMsg "new_text", fs)
      | some nt => edit_file p (tool_input.old_text.getD "") nt fs
  else ("未知工具: " ++ tool_name, fs)

/-- A content block of a model response, per the Model Client contract of the
spec (§4.3): an ordered sequence of Text and/or ToolUse variants. -/
inductive RespBlock where
  | text (t : String)
  | tool_use (id : String) (name : String) (input : ToolArgs)
  deriving DecidableEq

/-- A content block stored in the transcript: text, a tool-use request of the
assistant, or a tool result reported back by the agent. -/
inductive ContentBlock where
  | text (t : String)
  | tool_use (id : String) (name : String) (input : ToolArgs)
  | tool_result (tool_use_id : String) (content : String)
  deriving DecidableEq

/-- Content of a transcript message: the user's plain input string, or a list
of content blocks (assistant turns and tool-result messages). -/
inductive MsgContent where
  | str (s : String)
  | blocks (bs : List ContentBlock)
  deriving DecidableEq

/-- A transcript message: `{"role": ..., "content": ...}`. -/
structure Message where
  role : String
  content : MsgContent
  deriving DecidableEq

/-- The state owned by the orchestration loop: the transcript
(`self.messages`) and the local filesystem the tools act on. -/
structure AgentState where
  messages : List Message
  fs : FS
  deriving DecidableEq

/-- One exchange with the Model Client: either a response (its content
blocks), or an exception raised by the call, carrying `str(e)`. -/
inductive ModelResponse where
  | ok (blocks : List RespBlock)
  | err (msg : String)
  deriving DecidableEq

/-- The content list of the assistant message built from a response: the
loop keeps text and tool-use blocks (the only variants the Model Client
returns). -/
def assistantBlocks (blocks : List RespBlock) : List ContentBlock :=
  blocks.map fun b =>
    match b with
    | .text t => ContentBlock.text t
    | .tool_use i n inp => ContentBlock.tool_use i n inp

/-- The tool-use requests of a response, in order of appearance:
`(id, name, input)` triples. -/
def toolUses (blocks : List RespBlock) : List (String × String × ToolArgs) :=
  blocks.filterMap fun b =>
    match b with
    | .tool_use i n inp => some (i, n, inp)
    | _ => none

/-- Texts of the Text blocks of a response, in order. -/
def textBlocksOf (blocks : List RespBlock) : List String :=
  blocks.filterMap fun b =>
    match b with
    | .text t => some t
    | _ => none

/-- Embedding of `response.content[0].text if response.content else ""`.
The loop evaluates this only when the response holds no ToolUse block, so
the first block, if any, is a Text block; the `tool_use` branch is
unreachable at the call site (in Python it would raise). -/
def responseText : List RespBlock → String
  | [] => ""
  | .text t :: _ => t
  | .tool_use _ _ _ :: _ => ""

/-- The `tool_use_id` carried by a transcript block (the id field for the
other variants; used only on tool-result blocks). -/
def resultUseId : ContentBlock → String
  | .text _ => ""
  | .tool_use i _ _ => i
  | .tool_result i _ => i

/-- The ids of the tool-use blocks of a transcript message content. -/
def toolUseIdsC (bs : List ContentBlock) : List String :=
  bs.filterMap fun b =>
    match b with
    | .tool_use i _ _ => some i
    | _ => none

/-- Embedding of the tool-execution pass of `AIAgent.chat` (lines 272-286):
walk the response blocks in order; for each tool-use block invoke
`execute_tool` (threading the filesystem) and collect one tool-result block
pairing the `tool_use_id`.  The third component records the executor
invocations `(name, input)` actually made, in order, so that claims about
"how many times the Tool Executor is invoked" are statable. -/
def runTools : List RespBlock → FS → List ContentBlock × FS × List (String × ToolArgs)
  | [], fs => ([], fs, [])
  | .text _ :: rest, fs => runTools rest fs
  | .tool_use i n inp :: rest, fs =>
    let r := execute_tool n inp fs
    let rec_ := runTools rest r.2
    (ContentBlock.tool_result i r.1 :: rec_.1, rec_.2.1, (n, inp) :: rec_.2.2)

/-- Embedding of the `while True` loop of `AIAgent.chat` (lines 241-296).
The Model Client is abstracted as the script of its successive exchanges,
consumed one per iteration; `none` means the script ran out while the loop
still wanted another exchange (not observable for a long enough script).
On success it returns the turn's final text, the final state, and the trace
of executor invocations made during the turn. -/
def chatLoop : List ModelResponse → AgentState → Option (String × AgentState × List (String × ToolArgs))
  | [], _ => none
  | .err msg :: _, st => some ("错误: " ++ msg, st, [])
  | .ok blocks :: rest, st =>
    let msgs1 := st.messages ++ [⟨"assistant", .blocks (assistantBlocks blocks)⟩]
    let rt := runTools blocks st.fs
    if rt.1.isEmpty then
      some (responseText blocks, ⟨msgs1, rt.2.1⟩, rt.2.2)
    else
      (chatLoop rest ⟨msgs1 ++ [⟨"user", .blocks rt.1⟩], rt.2.1⟩).map
        fun r => (r.1, r.2.1, rt.2.2 ++ r.2.2)

/-- Embedding of `AIAgent.chat`: append the user's input to the transcript,
then run the orchestration loop. -/
def chat (user_input : String) (script : List ModelResponse) (st : AgentState) :
    Option (String × AgentState × List (String × ToolArgs)) :=
  chatLoop script ⟨st.messages ++ [⟨"user", .str user_input⟩], st.fs⟩

/-! ### Lemmas about the filesystem primitives -/

theorem lookupFileList_set_self (l : List (Path × String)) (p : Path) (c : String) :
    lookupFileList (setFileList l p c) p = some c := by
  induction l with
  | nil => simp [setFileList, lookupFileList]
  | cons hd tl ih =>
    obtain ⟨q, c0⟩ := hd
    by_cases h : q = p
    · simp [setFileList, lookupFileList, h]
    · simp [setFileList, lookupFileList, h, ih]

theorem lookupFileList_set_other (l : List (Path × String)) (p q : Path) (c : String)
    (h : q ≠ p) : lookupFileList (setFileList l p c) q = lookupFileList l q := by
  induction l with
  | nil => simp [setFileList, lookupFileList, Ne.symm h]
  | cons hd tl ih =>
    obtain ⟨q0, c0⟩ := hd
    by_cases hq : q0 = p
    · subst hq
      simp [setFileList, lookupFileList, Ne.symm h]
    · simp [setFileList, lookupFileList, hq, ih]

theorem lookupFileList_mem (l : List (Path × String)) (p : Path) (c : String)
    (h : lookupFileList l p = some c) : p ∈ l.map Prod.fst := by
  induction l with
  | nil => simp [lookupFileList] at h
  | cons hd tl ih =>
    obtain ⟨q, c0⟩ := hd
    by_cases hq : q = p
    · simp [hq]
    · simp only [lookupFileList, if_neg hq] at h
      simp [ih h]

/-! ### Claims about the tool functions and the orchestration loop -/

/-- C10: `read_file` and `list_files` never modify the filesystem state:
whatever string they return (content, not-found, or other error), the state
after the call equals the state before it. -/
theorem read_list_files_no_modify (p : Path) (fs : FS) :
    (read_file p fs).2 = fs ∧ (list_files p fs).2 = fs := by
  constructor
  · unfold read_file
    split <;> rfl
  · unfold list_files
    split
    · rfl
    · split
      · rfl
      · dsimp only
        split <;> rfl

/-- C4: the Tool Executor is total — for every tool name and argument
mapping it returns a result string (no exception reaches the caller) — and
every name outside {read_file, list_files, edit_file} yields the
unknown-tool string, leaving the filesystem untouched. -/
theorem execute_tool_total_unknown (tool_name : String) (args : ToolArgs) (fs : FS) :
    (∃ out, execute_tool tool_name args fs = out) ∧
    (tool_name ∉ ["read_file", "list_files", "edit_file"] →
      execute_tool tool_name args fs = ("未知工具: " ++ tool_name, fs)) := by
  refine ⟨⟨_, rfl⟩, fun h => ?_⟩
  simp only [List.mem_cons, List.not_mem_nil, or_false, not_or] at h
  obtain ⟨h1, h2, h3⟩ := h
  simp [execute_tool, h1, h2, h3]

/-- Witness for C4 at the concrete unknown tool name `"foo"`. -/
theorem execute_tool_total_unknown_witness :
    "foo" ∉ ["read_file", "list_files", "edit_file"] ∧
    execute_tool "foo" ⟨none, none, none⟩ ⟨[], [[]]⟩ = ("未知工具: " ++ "foo", ⟨[], [[]]⟩) :=
  ⟨by decide, (execute_tool_total_unknown "foo" ⟨none, none, none⟩ ⟨[], [[]]⟩).2 (by decide)⟩

/-- C3: when a Model Client call raises an exception — at any point of the
turn (first conjunct, for an arbitrary mid-turn state) and in particular on
a fresh user turn (second conjunct) — the chat operation returns the
descriptive string `错误: str(e)` as the turn's final text, invokes no tool,
and leaves the transcript exactly as already appended before the failing
call: no assistant message is added for the failing request. -/
theorem chat_model_error_aborts (msg : String) (rest : List ModelResponse)
    (st : AgentState) (user_input : String) :
    chatLoop (.err msg :: rest) st = some ("错误: " ++ msg, st, []) ∧
    chat user_input (.err msg :: rest) st =
      some ("错误: " ++ msg, ⟨st.messages ++ [⟨"user", MsgContent.str user_input⟩], st.fs⟩, []) :=
  ⟨rfl, rfl⟩

theorem runTools_no_uses (blocks : List RespBlock) (fs : FS)
    (h : toolUses blocks = []) : runTools blocks fs = ([], fs, []) := by
  induction blocks generalizing fs with
  | nil => rfl
  | cons hd rest ih =>
    cases hd with
    | text t =>
      simp only [toolUses, List.filterMap_cons] at h
      exact ih fs h
    | tool_use i n inp => simp [toolUses] at h

theorem responseText_eq_headD (blocks : List RespBlock) (h : toolUses blocks = []) :
    responseText blocks = (textBlocksOf blocks).headD "" := by
  cases blocks with
  | nil => rfl
  | cons hd rest =>
    cases hd with
    | text t => simp [responseText, textBlocksOf]
    | tool_use i n inp => simp [toolUses] at h

/-- C2: on a model response with zero ToolUse blocks, the loop consumes
exactly one Model Client exchange and returns immediately (independently of
any further scripted exchange), invokes the Tool Executor zero times (empty
invocation trace), appends only the assistant message, leaves the
filesystem untouched, and returns the first Text block's text — the empty
string when the response has no Text block. -/
theorem chat_no_tool_use (blocks : List RespBlock) (rest : List ModelResponse)
    (st : AgentState) (h : toolUses blocks = []) :
    chatLoop (.ok blocks :: rest) st =
      some (responseText blocks,
        ⟨st.messages ++ [⟨"assistant", .blocks (assistantBlocks blocks)⟩], st.fs⟩, []) ∧
    responseText blocks = (textBlocksOf blocks).headD "" := by
  refine ⟨?_, responseText_eq_headD blocks h⟩
  simp [chatLoop, runTools_no_uses blocks st.fs h]

/-- Witness for C2: a response consisting of a single Text block. -/
theorem chat_no_tool_use_witness :
    toolUses [RespBlock.text "hi"] = [] ∧
    (chatLoop (.ok [RespBlock.text "hi"] :: []) ⟨[], ⟨[], [[]]⟩⟩ =
      some (responseText [RespBlock.text "hi"],
        ⟨([] : List Message) ++ [⟨"assistant", .blocks (assistantBlocks [RespBlock.text "hi"])⟩],
          (⟨[], [[]]⟩ : FS)⟩, []) ∧
      responseText [RespBlock.text "hi"] = (textBlocksOf [RespBlock.text "hi"]).headD "") :=
  ⟨rfl, chat_no_tool_use [RespBlock.text "hi"] [] ⟨[], ⟨[], [[]]⟩⟩ rfl⟩

theorem runTools_spec (blocks : List RespBlock) (fs : FS) :
    (runTools blocks fs).2.2 = (toolUses blocks).map (fun t => (t.2.1, t.2.2)) ∧
    (runTools blocks fs).1.map resultUseId = (toolUses blocks).map (fun t => t.1) ∧
    ∀ b ∈ (runTools blocks fs).1, ∃ i c, b = ContentBlock.tool_result i c := by
  induction blocks generalizing fs with
  | nil => simp [runTools, toolUses]
  | cons hd rest ih =>
    cases hd with
    | text t => simpa [runTools, toolUses] using ih fs
    | tool_use i n inp =>
      obtain ⟨h1, h2, h3⟩ := ih (execute_tool n inp fs).2
      refine ⟨?_, ?_, ?_⟩
      · simpa [runTools, toolUses] using h1
      · simpa [runTools, toolUses, resultUseId] using h2
      · intro b hb
        simp only [runTools, List.mem_cons] at hb
        rcases hb with hb | hb
        · exact ⟨i, _, hb⟩
        · exact h3 b hb

theorem toolUseIdsC_assistantBlocks (blocks : List RespBlock) :
    toolUseIdsC (assistantBlocks blocks) = (toolUses blocks).map (fun t => t.1) := by
  induction blocks with
  | nil => rfl
  | cons hd rest ih =>
    cases hd with
    | text t => simpa [assistantBlocks, toolUseIdsC, toolUses] using ih
    | tool_use i n inp => simpa [assistantBlocks, toolUseIdsC, toolUses] using ih

/-- C1: on a model response with `N ≥ 1` ToolUse blocks, the loop invokes
the Tool Executor exactly `N` times, with the names and inputs of the
ToolUse blocks in their order of appearance (the invocation trace equals
their list); it appends exactly one assistant message and exactly one new
user message holding one ToolResult block per invocation, whose
`tool_use_id`s equal, in order, the ids of the ToolUse blocks of the
immediately preceding assistant message; and it then consumes another Model
Client exchange (the recursive call on the remaining script) before
returning. -/
theorem chat_tool_use_iteration (blocks : List RespBlock) (rest : List ModelResponse)
    (st : AgentState) (h : 1 ≤ (toolUses blocks).length) :
    (runTools blocks st.fs).2.2 = (toolUses blocks).map (fun t => (t.2.1, t.2.2)) ∧
    (runTools blocks st.fs).1.map resultUseId = (toolUses blocks).map (fun t => t.1) ∧
    (∀ b ∈ (runTools blocks st.fs).1, ∃ i c, b = ContentBlock.tool_result i c) ∧
    toolUseIdsC (assistantBlocks blocks) = (toolUses blocks).map (fun t => t.1) ∧
    chatLoop (.ok blocks :: rest) st =
      (chatLoop rest ⟨st.messages ++ [⟨"assistant", .blocks (assistantBlocks blocks)⟩,
          ⟨"user", .blocks (runTools blocks st.fs).1⟩], (runTools blocks st.fs).2.1⟩).map
        fun r => (r.1, r.2.1, (runTools blocks st.fs).2.2 ++ r.2.2) := by
  obtain ⟨h1, h2, h3⟩ := runTools_spec blocks st.fs
  have hlen : (runTools blocks st.fs).1.length = (toolUses blocks).length := by
    have := congrArg List.length h2
    simpa using this
  have hne : (runTools blocks st.fs).1.isEmpty = false := by
    rcases heq : (runTools blocks st.fs).1 with _ | ⟨b, bs⟩
    · rw [heq] at hlen
      simp at hlen
      omega
    · rfl
  refine ⟨h1, h2, h3, toolUseIdsC_assistantBlocks blocks, ?_⟩
  simp [chatLoop, hne]

/-- Witness for C1: a response with one ToolUse block (an unknown tool). -/
theorem chat_tool_use_iteration_witness :
    1 ≤ (toolUses [RespBlock.tool_use "id1" "foo" ⟨none, none, none⟩]).length ∧
    ((runTools [RespBlock.tool_use "id1" "foo" ⟨none, none, none⟩] (⟨[], [[]]⟩ : FS)).2.2 =
        (toolUses [RespBlock.tool_use "id1" "foo" ⟨none, none, none⟩]).map (fun t => (t.2.1, t.2.2)) ∧
      (runTools [RespBlock.tool_use "id1" "foo" ⟨none, none, none⟩] (⟨[], [[]]⟩ : FS)).1.map resultUseId =
        (toolUses [RespBlock.tool_use "id1" "foo" ⟨none, none, none⟩]).map (fun t => t.1) ∧
      (∀ b ∈ (runTools [RespBlock.tool_use "id1" "foo" ⟨none, none, none⟩] (⟨[], [[]]⟩ : FS)).1,
        ∃ i c, b = ContentBlock.tool_result i c) ∧
      toolUseIdsC (assistantBlocks [RespBlock.tool_use "id1" "foo" ⟨none, none, none⟩]) =
        (toolUses [RespBlock.tool_use "id1" "foo" ⟨none, none, none⟩]).map (fun t => t.1) ∧
      chatLoop (.ok [RespBlock.tool_use "id1" "foo" ⟨none, none, none⟩] :: []) ⟨[], ⟨[], [[]]⟩⟩ =
        (chatLoop [] ⟨([] : List Message) ++
            [⟨"assistant", .blocks (assistantBlocks [RespBlock.tool_use "id1" "foo" ⟨none, none, none⟩])⟩,
             ⟨"user", .blocks (runTools [RespBlock.tool_use "id1" "foo" ⟨none, none, none⟩] (⟨[], [[]]⟩ : FS)).1⟩],
            (runTools [RespBlock.tool_use "id1" "foo" ⟨none, none, none⟩] (⟨[], [[]]⟩ : FS)).2.1⟩).map
          fun r => (r.1, r.2.1,
            (runTools [RespBlock.tool_use "id1" "foo" ⟨none, none, none⟩] (⟨[], [[]]⟩ : FS)).2.2 ++ r.2.2)) :=
  ⟨by decide,
   chat_tool_use_iteration [RespBlock.tool_use "id1" "foo" ⟨none, none, none⟩] []
     ⟨[], ⟨[], [[]]⟩⟩ (by decide)⟩

/-! ### Lemmas for the create mode of `edit_file` -/

theorem chainFrom_length_le (done : Path) (l : List String) :
    ∀ q ∈ chainFrom done l, done.length < q.length ∧ q.length ≤ done.length + l.length := by
  induction l generalizing done with
  | nil => simp [chainFrom]
  | cons c cs ih =>
    intro q hq
    simp only [chainFrom, List.mem_cons] at hq
    rcases hq with rfl | hq
    · simp
    · have := ih (done ++ [c]) q hq
      simp at this ⊢
      omega

theorem self_mem_chainFrom (done : Path) (l : List String) (h : l ≠ []) :
    done ++ l ∈ chainFrom done l := by
  induction l generalizing done with
  | nil => exact absurd rfl h
  | cons c cs ih =>
    rw [chainFrom]
    rcases eq_or_ne cs [] with rfl | hcs
    · simp
    · have h2 := ih (done ++ [c]) hcs
      rw [show done ++ c :: cs = (done ++ [c]) ++ cs by simp]
      exact List.mem_cons_of_mem _ h2

theorem mkdirAll_ok (rest : List String) (done : Path) (fs : FS)
    (hnf : ∀ q ∈ chainFrom done rest, fs.isFile q = false) :
    ∃ fs', mkdirAll fs done rest = .ok fs' ∧ fs'.files = fs.files ∧
      (∀ d, fs.isDir d = true → fs'.isDir d = true) ∧
      (∀ q ∈ chainFrom done rest, fs'.isDir q = true) ∧
      (∀ d, fs'.isDir d = true → fs.isDir d = true ∨ d ∈ chainFrom done rest) := by
  induction rest generalizing done fs with
  | nil => exact ⟨fs, rfl, rfl, fun d hd => hd, by simp [chainFrom], fun d hd => Or.inl hd⟩
  | cons c cs ih =>
    have hq : fs.isFile (done ++ [c]) = false := hnf _ (by simp [chainFrom])
    by_cases hd : fs.isDir (done ++ [c]) = true
    · obtain ⟨fs', heq, hfiles, hpres, hchain, hconv⟩ := ih (done ++ [c]) fs
        (fun q hq' => hnf q (by simp [chainFrom, hq']))
      refine ⟨fs', ?_, hfiles, hpres, ?_, ?_⟩
      · simp [mkdirAll, hq, hd, heq]
      · intro q hq'
        simp only [chainFrom, List.mem_cons] at hq'
        rcases hq' with rfl | hq'
        · exact hpres _ hd
        · exact hchain q hq'
      · intro d hd'
        rcases hconv d hd' with h | h
        · exact Or.inl h
        · exact Or.inr (by simp [chainFrom, h])
    · rw [Bool.not_eq_true] at hd
      have hnf0 : ∀ q ∈ chainFrom (done ++ [c]) cs,
          (⟨fs.files, fs.dirs ++ [done ++ [c]]⟩ : FS).isFile q = false :=
        fun q hq' => hnf q (by simp [chainFrom, hq'])
      obtain ⟨fs', heq, hfiles, hpres, hchain, hconv⟩ := ih (done ++ [c]) _ hnf0
      refine ⟨fs', ?_, hfiles, ?_, ?_, ?_⟩
      · simp [mkdirAll, hq, hd, heq]
      · intro d hdd
        apply hpres
        simp only [FS.isDir, decide_eq_true_eq] at hdd ⊢
        simp [List.mem_append, hdd]
      · intro q hq'
        simp only [chainFrom, List.mem_cons] at hq'
        rcases hq' with rfl | hq'
        · apply hpres
          simp [FS.isDir]
        · exact hchain q hq'
      · intro d hd'
        rcases hconv d hd' with h | h
        · simp only [FS.isDir, decide_eq_true_eq, List.mem_append,
            List.mem_singleton] at h
          rcases h with h | h
          · exact Or.inl (by simp [FS.isDir, h])
          · exact Or.inr (by simp [chainFrom, h])
        · exact Or.inr (by simp [chainFrom, h])

/-- Create mode of `edit_file`, fully characterised: when the replace-mode
guard fails (no file at `path`, or empty `old_text`), `path` is not an
existing directory, and no ancestor of `path` exists as a regular file, the
call creates all missing parent directories, writes `new_text` as the whole
content of `path`, touches no other file, and reports success as creation. -/
theorem edit_file_create_aux (path : Path) (old_text new_text : String) (fs : FS)
    (hwf : fs.wf)
    (hmode : fs.isFile path = false ∨ old_text = "")
    (hnd : fs.isDir path = false)
    (hanc : ∀ q ∈ chainFrom [] path.dropLast, fs.isFile q = false) :
    ∃ fs', edit_file path old_text new_text fs = ("成功创建 " ++ pathStr path, fs') ∧
      fs'.lookupFile path = some new_text ∧
      (∀ q, q ≠ path → fs'.lookupFile q = fs.lookupFile q) ∧
      (∀ q ∈ chainFrom [] path.dropLast, fs'.isDir q = true) ∧
      (∀ d, fs.isDir d = true → fs'.isDir d = true) := by
  obtain ⟨hroot, hnodupf, hnodupd, hfilesWf, hdirsWf⟩ := hwf
  have hrootDir : fs.isDir [] = true := by simp [FS.isDir, hroot]
  have hpathne : path ≠ [] := by
    intro h
    rw [h, hrootDir] at hnd
    exact absurd hnd (by simp)
  have hcond : (fs.pathExists path && !(old_text == "")) = false := by
    rcases hmode with h | h
    · simp [FS.pathExists, h, hnd]
    · simp [h]
  have H : ∃ fs1, (if path.dropLast.isEmpty then (Except.ok fs : Except PyErr FS)
        else fs.makedirs path.dropLast) = .ok fs1 ∧
      fs1.files = fs.files ∧ (∀ d, fs.isDir d = true → fs1.isDir d = true) ∧
      (∀ q ∈ chainFrom [] path.dropLast, fs1.isDir q = true) ∧
      (∀ d, fs1.isDir d = true → fs.isDir d = true ∨ d ∈ chainFrom [] path.dropLast) := by
    by_cases hdl : path.dropLast.isEmpty = true
    · have hdl' : path.dropLast = [] := by simpa using hdl
      exact ⟨fs, by simp [hdl], rfl, fun d hd => hd, by simp [hdl', chainFrom],
        fun d hd => Or.inl hd⟩
    · rw [Bool.not_eq_true] at hdl
      obtain ⟨fs1, heq, h⟩ := mkdirAll_ok path.dropLast [] fs hanc
      exact ⟨fs1, by simp [hdl, FS.makedirs, heq], h⟩
  obtain ⟨fs1, hfs1, hfiles1, hpres1, hchain1, hconv1⟩ := H
  have hdll : path.dropLast.length < path.length := by
    cases path with
    | nil => exact absurd rfl hpathne
    | cons a l => simp
  have hnd1 : fs1.isDir path = false := by
    rw [Bool.eq_false_iff]
    intro hcontra
    rcases hconv1 path hcontra with h | h
    · rw [hnd] at h
      exact absurd h (by simp)
    · have := chainFrom_length_le [] path.dropLast path h
      simp only [List.length_nil] at this
      omega
  have hpar1 : fs1.isDir path.dropLast = true := by
    by_cases hdl : path.dropLast = []
    · rw [hdl]
      exact hpres1 [] hrootDir
    · exact hchain1 _ (self_mem_chainFrom [] path.dropLast hdl)
  have hfs1' : (if List.dropLast path = [] then (Except.ok fs : Except PyErr FS)
      else fs.makedirs path.dropLast) = .ok fs1 := by
    simpa [List.isEmpty_iff] using hfs1
  refine ⟨⟨setFileList fs1.files path new_text, fs1.dirs⟩, ?_, ?_, ?_, ?_, ?_⟩
  · simp [edit_file, hcond, hfs1', FS.openWrite, hnd1, hpar1]
  · exact lookupFileList_set_self _ _ _
  · intro q hq
    show lookupFileList (setFileList fs1.files path new_text) q = fs.lookupFile q
    rw [lookupFileList_set_other _ _ _ _ hq, hfiles1]
    rfl
  · intro q hq
    exact hchain1 q hq
  · intro d hd
    exact hpres1 d hd

/-! ### The claims about `edit_file`, `read_file` and `list_files` -/

/-- C5: replace mode — on an existing file whose content contains the
non-empty `old_text`, `edit_file` reports success and rewrites exactly that
file, its new content being the old content with every occurrence of
`old_text` replaced by `new_text`; every other file and all directories are
unchanged. -/
theorem edit_file_replace (path : Path) (old_text new_text content : String) (fs : FS)
    (hwf : fs.wf) (hc : fs.lookupFile path = some content)
    (hold : old_text ≠ "") (hsub : pyContains content old_text = true) :
    ∃ fs', edit_file path old_text new_text fs = ("成功编辑 " ++ pathStr path, fs') ∧
      fs'.lookupFile path = some (pyReplace content old_text new_text) ∧
      (∀ q, q ≠ path → fs'.lookupFile q = fs.lookupFile q) ∧
      fs'.dirs = fs.dirs := by
  obtain ⟨hroot, hnodupf, hnodupd, hfilesWf, hdirsWf⟩ := hwf
  obtain ⟨hnd, hne, hpar⟩ := hfilesWf path (lookupFileList_mem _ _ _ hc)
  have hf : fs.isFile path = true := by unfold FS.isFile; rw [hc]; rfl
  have hex : fs.pathExists path = true := by simp [FS.pathExists, hf]
  have hbeq : (old_text == "") = false := by simpa using hold
  have hdirF : fs.isDir path = false := by simp [FS.isDir, hnd]
  have hdirP : fs.isDir path.dropLast = true := by simp [FS.isDir, hpar]
  refine ⟨⟨setFileList fs.files path (pyReplace content old_text new_text), fs.dirs⟩,
    ?_, ?_, ?_, rfl⟩
  · simp [edit_file, hex, hbeq, FS.openRead, hc, hsub, FS.openWrite, hdirF, hdirP]
  · exact lookupFileList_set_self _ _ _
  · intro q hq
    exact lookupFileList_set_other _ _ _ _ hq

/-- Witness for C5: replace `"b"` by `"z"` in a file with content `"aba"`. -/
theorem edit_file_replace_witness :
    (⟨[(["f"], "aba")], [[]]⟩ : FS).wf ∧
    (⟨[(["f"], "aba")], [[]]⟩ : FS).lookupFile ["f"] = some "aba" ∧
    "b" ≠ "" ∧ pyContains "aba" "b" = true ∧
    (∃ fs', edit_file ["f"] "b" "z" ⟨[(["f"], "aba")], [[]]⟩ = ("成功编辑 " ++ pathStr ["f"], fs') ∧
      fs'.lookupFile ["f"] = some (pyReplace "aba" "b" "z") ∧
      (∀ q, q ≠ ["f"] → fs'.lookupFile q = (⟨[(["f"], "aba")], [[]]⟩ : FS).lookupFile q) ∧
      fs'.dirs = (⟨[(["f"], "aba")], [[]]⟩ : FS).dirs) :=
  ⟨by decide, by decide, by decide, by decide,
   edit_file_replace ["f"] "b" "z" "aba" ⟨[(["f"], "aba")], [[]]⟩
     (by decide) (by decide) (by decide) (by decide)⟩

/-- C6: on an existing file whose content does not contain the non-empty
`old_text`, `edit_file` returns the text-not-found message and the whole
filesystem state — in particular that file's content — is unchanged. -/
theorem edit_file_text_not_found (path : Path) (old_text new_text content : String) (fs : FS)
    (hc : fs.lookupFile path = some content)
    (hold : old_text ≠ "") (hsub : pyContains content old_text = false) :
    edit_file path old_text new_text fs = ("文件中未找到文本: " ++ old_text, fs) := by
  have hf : fs.isFile path = true := by unfold FS.isFile; rw [hc]; rfl
  have hex : fs.pathExists path = true := by simp [FS.pathExists, hf]
  have hbeq : (old_text == "") = false := by simpa using hold
  simp [edit_file, hex, hbeq, FS.openRead, hc, hsub]

/-- Witness for C6: `"zz"` does not occur in `"aba"`. -/
theorem edit_file_text_not_found_witness :
    (⟨[(["f"], "aba")], [[]]⟩ : FS).lookupFile ["f"] = some "aba" ∧
    "zz" ≠ "" ∧ pyContains "aba" "zz" = false ∧
    edit_file ["f"] "zz" "z" ⟨[(["f"], "aba")], [[]]⟩ =
      ("文件中未找到文本: " ++ "zz", ⟨[(["f"], "aba")], [[]]⟩) :=
  ⟨by decide, by decide, by decide,
   edit_file_text_not_found ["f"] "zz" "z" "aba" ⟨[(["f"], "aba")], [[]]⟩
     (by decide) (by decide) (by decide)⟩

/-- C7 (amended): create mode succeeds — making the missing parent
directories, writing `new_text` as the entire content (overwriting an
existing file when `old_text` is empty), reporting creation — provided
additionally that `path` is not an existing directory and no ancestor of
`path` exists as a regular file; a separate counterexample theorem shows
the claim fails without these provisos. -/
theorem edit_file_create_mode (path : Path) (old_text new_text : String) (fs : FS)
    (hwf : fs.wf)
    (hmode : fs.isFile path = false ∨ old_text = "")
    (hnd : fs.isDir path = false)
    (hanc : ∀ q ∈ chainFrom [] path.dropLast, fs.isFile q = false) :
    ∃ fs', edit_file path old_text new_text fs = ("成功创建 " ++ pathStr path, fs') ∧
      fs'.lookupFile path = some new_text ∧
      (∀ q, q ≠ path → fs'.lookupFile q = fs.lookupFile q) ∧
      (∀ q ∈ chainFrom [] path.dropLast, fs'.isDir q = true) ∧
      (∀ d, fs.isDir d = true → fs'.isDir d = true) :=
  edit_file_create_aux path old_text new_text fs hwf hmode hnd hanc

/-- Counterexample to C7 as stated: `["d"]` holds an existing (empty)
directory and `old_text` is empty — the claim's hypothesis "the file at
path does not exist or old_text is empty" holds — yet the call reports an
error, not creation, and writes no file. -/
theorem edit_file_create_mode_cex :
    (⟨[], [[], ["d"]]⟩ : FS).wf ∧
    (⟨[], [[], ["d"]]⟩ : FS).isFile ["d"] = false ∧
    (edit_file ["d"] "" "x" ⟨[], [[], ["d"]]⟩).1 ≠ "成功创建 " ++ pathStr ["d"] ∧
    (edit_file ["d"] "" "x" ⟨[], [[], ["d"]]⟩).2.lookupFile ["d"] = none := by
  refine ⟨by decide, by decide, ?_, by decide⟩
  decide

/-- Witness for the amended C7: create `["d", "f"]` under an existing empty
root, with the parent directory `["d"]` still missing. -/
theorem edit_file_create_mode_witness :
    (⟨[], [[]]⟩ : FS).wf ∧
    ((⟨[], [[]]⟩ : FS).isFile ["d", "f"] = false ∨ ("" : String) = "") ∧
    (⟨[], [[]]⟩ : FS).isDir ["d", "f"] = false ∧
    (∀ q ∈ chainFrom [] (["d", "f"] : Path).dropLast, (⟨[], [[]]⟩ : FS).isFile q = false) ∧
    (∃ fs', edit_file ["d", "f"] "" "hello" ⟨[], [[]]⟩ =
        ("成功创建 " ++ pathStr ["d", "f"], fs') ∧
      fs'.lookupFile ["d", "f"] = some "hello" ∧
      (∀ q, q ≠ ["d", "f"] → fs'.lookupFile q = (⟨[], [[]]⟩ : FS).lookupFile q) ∧
      (∀ q ∈ chainFrom [] (["d", "f"] : Path).dropLast, fs'.isDir q = true) ∧
      (∀ d, (⟨[], [[]]⟩ : FS).isDir d = true → fs'.isDir d = true)) :=
  ⟨by decide, by decide, by decide, by decide,
   edit_file_create_mode ["d", "f"] "" "hello" ⟨[], [[]]⟩
     (by decide) (by decide) (by decide) (by decide)⟩

/-- C9 (amended): creating a nonexistent file with empty `old_text` and then
reading it returns exactly the written content (behind the fixed
`文件 path 的内容:` header `read_file` always prepends), provided no ancestor
of `path` exists as a regular file; a separate counterexample theorem shows
the claim fails without that proviso. -/
theorem edit_file_create_then_read (path : Path) (new_text : String) (fs : FS)
    (hwf : fs.wf) (hex : fs.pathExists path = false)
    (hanc : ∀ q ∈ chainFrom [] path.dropLast, fs.isFile q = false) :
    ∃ fs', edit_file path "" new_text fs = ("成功创建 " ++ pathStr path, fs') ∧
      fs'.lookupFile path = some new_text ∧
      read_file path fs' = ("文件 " ++ pathStr path ++ " 的内容:\n" ++ new_text, fs') := by
  have hnd : fs.isDir path = false := by
    have := hex
    simp only [FS.pathExists, Bool.or_eq_false_iff] at this
    exact this.2
  obtain ⟨fs', h1, h2, _, _, _⟩ :=
    edit_file_create_aux path "" new_text fs hwf (Or.inr rfl) hnd hanc
  exact ⟨fs', h1, h2, by simp [read_file, FS.openRead, h2]⟩

/-- Counterexample to C9 as stated: `["a", "b"]` is a nonexistent path, but
its ancestor `["a"]` is a regular file, so creation fails: `os.makedirs`
raises `FileExistsError`, the call reports an error, no file appears, and a
subsequent read fails with `NotADirectoryError` (ENOTDIR), rendered by the
generic handler of `_read_file` — not the not-found branch. -/
theorem edit_file_roundtrip_cex :
    (⟨[(["a"], "x")], [[]]⟩ : FS).wf ∧
    (⟨[(["a"], "x")], [[]]⟩ : FS).pathExists ["a", "b"] = false ∧
    (edit_file ["a", "b"] "" "y" ⟨[(["a"], "x")], [[]]⟩).1 ≠ "成功创建 " ++ pathStr ["a", "b"] ∧
    (edit_file ["a", "b"] "" "y" ⟨[(["a"], "x")], [[]]⟩).2.lookupFile ["a", "b"] = none ∧
    (read_file ["a", "b"] (edit_file ["a", "b"] "" "y" ⟨[(["a"], "x")], [[]]⟩).2).1 =
      "读取文件时出错: [Errno 20] Not a directory: \x27a/b\x27" := by
  refine ⟨by decide, by decide, ?_, by decide, by decide⟩
  decide

/-- Witness for the amended C9: create `["n"]` in an empty root and read it
back. -/
theorem edit_file_create_then_read_witness :
    (⟨[], [[]]⟩ : FS).wf ∧
    (⟨[], [[]]⟩ : FS).pathExists ["n"] = false ∧
    (∀ q ∈ chainFrom [] (["n"] : Path).dropLast, (⟨[], [[]]⟩ : FS).isFile q = false) ∧
    (∃ fs', edit_file ["n"] "" "hello" ⟨[], [[]]⟩ = ("成功创建 " ++ pathStr ["n"], fs') ∧
      fs'.lookupFile ["n"] = some "hello" ∧
      read_file ["n"] fs' = ("文件 " ++ pathStr ["n"] ++ " 的内容:\n" ++ "hello", fs')) :=
  ⟨by decide, by decide, by decide,
   edit_file_create_then_read ["n"] "hello" ⟨[], [[]]⟩ (by decide) (by decide) (by decide)⟩

/-! ### The listing claim -/

theorem eq_parent_concat (a p : Path) (b : String)
    (h1 : a.dropLast = p) (h2 : a.getLast? = some b) : a = p ++ [b] := by
  rcases List.eq_nil_or_concat a with rfl | ⟨q, x, rfl⟩
  · simp at h2
  · simp only [List.concat_eq_append, List.dropLast_concat] at h1
    simp only [List.concat_eq_append, List.getLast?_concat, Option.some.injEq] at h2
    simp [List.concat_eq_append, h1, h2]

theorem char_lt_iff_toNat (a b : Char) : a < b ↔ a.toNat < b.toNat := by
  constructor
  · intro h
    exact h
  · intro h
    exact h

theorem charListLe_iff (x y : List Char) :
    charListLe x y = true ↔ ¬ List.Lex (· < ·) y x := by
  induction x generalizing y with
  | nil =>
    cases y with
    | nil => simp [charListLe]
    | cons b bs => simp [charListLe]
  | cons a as ih =>
    cases y with
    | nil =>
      simp only [charListLe, Bool.false_eq_true, false_iff, not_not]
      exact List.Lex.nil
    | cons b bs =>
      by_cases h1 : a.toNat < b.toNat
      · simp only [charListLe, if_pos h1, true_iff]
        intro hlex
        cases hlex with
        | cons h => exact absurd h1 (Nat.lt_irrefl _)
        | rel h =>
          have hba : b.toNat < a.toNat := (char_lt_iff_toNat b a).mp h
          exact absurd (Nat.lt_trans h1 hba) (Nat.lt_irrefl _)
      · by_cases h2 : b.toNat < a.toNat
        · simp only [charListLe, if_neg h1, if_pos h2, Bool.false_eq_true, false_iff, not_not]
          exact List.Lex.rel ((char_lt_iff_toNat b a).mpr h2)
        · have hval : a.toNat = b.toNat := by omega
          have hab : a = b := Char.eq_of_val_eq (UInt32.toNat.inj hval)
          subst hab
          simp only [charListLe, if_neg h1, if_neg h2]
          rw [ih bs]
          constructor
          · intro h hlex
            cases hlex with
            | cons hl => exact h hl
            | rel hr => exact absurd ((char_lt_iff_toNat a a).mp hr) (Nat.lt_irrefl _)
          · intro h hlex
            exact h (List.Lex.cons hlex)

theorem strLe_iff (a b : String) : strLe a b = true ↔ a ≤ b := by
  have h1 : (a ≤ b) = ¬ (b < a) := rfl
  rw [h1, String.lt_iff_toList_lt]
  exact charListLe_iff a.data b.data

theorem children_nodup (fs : FS) (p : Path) (hwf : fs.wf) : (fs.children p).Nodup := by
  obtain ⟨hroot, hnodupf, hnodupd, hfilesWf, hdirsWf⟩ := hwf
  have hnd : (fs.files.map Prod.fst ++ fs.dirs).Nodup := by
    refine List.Nodup.append hnodupf hnodupd ?_
    intro a ha hb
    exact (hfilesWf a ha).1 hb
  refine List.Nodup.filterMap ?_ hnd
  intro a a' b hb hb'
  by_cases h1 : a.dropLast = p
  · by_cases h2 : a'.dropLast = p
    · simp only [if_pos h1] at hb
      simp only [if_pos h2] at hb'
      rw [eq_parent_concat a p b h1 hb, eq_parent_concat a' p b h2 hb']
    · simp [if_neg h2] at hb'
  · simp [if_neg h1] at hb

/-- C8: `list_files` returns the not-found message when the path does not
exist; on an existing directory it returns the empty-directory message when
there are no children, and otherwise a header line plus one line per
immediate child, the children sorted lexicographically, each one tagged as
a directory (`[目录]`) or a file (`[文件]`) according to what it is. -/
theorem list_files_spec (fs : FS) (p : Path) (hwf : fs.wf) :
    (fs.pathExists p = false → list_files p fs = ("路径未找到: " ++ pathStr p, fs)) ∧
    (fs.isDir p = true → fs.children p = [] →
      list_files p fs = ("空目录: " ++ pathStr p, fs)) ∧
    (fs.isDir p = true → fs.children p ≠ [] →
      ∃ ns : List String, ns.Perm (fs.children p) ∧ ns.Sorted (· ≤ ·) ∧ ns.Nodup ∧
        list_files p fs = (pathStr p ++ " 的内容:\n" ++ String.intercalate "\n"
          (ns.map fun item =>
            if fs.isDir (p ++ [item]) then "[目录]  " ++ item ++ "/"
            else "[文件] " ++ item), fs)) := by
  refine ⟨fun hne => by simp [list_files, hne], fun hd hemp => ?_, fun hd hne => ?_⟩
  · have hex : fs.pathExists p = true := by simp [FS.pathExists, hd]
    simp [list_files, hex, FS.listdir, hd, hemp]
  · have hex : fs.pathExists p = true := by simp [FS.pathExists, hd]
    haveI : IsTrans String (strLe · ·) := ⟨fun x y z hxy hyz =>
      (strLe_iff x z).mpr (le_trans ((strLe_iff x y).mp hxy) ((strLe_iff y z).mp hyz))⟩
    haveI : IsTotal String (strLe · ·) := ⟨fun x y => by
      rcases le_total x y with h | h
      · exact Or.inl ((strLe_iff x y).mpr h)
      · exact Or.inr ((strLe_iff y x).mpr h)⟩
    have hperm := List.perm_insertionSort (α := String) (strLe · ·) (fs.children p)
    refine ⟨(fs.children p).insertionSort (strLe · ·), hperm, ?_, ?_, ?_⟩
    · exact List.Pairwise.imp (fun hab => (strLe_iff _ _).mp hab)
        (List.sorted_insertionSort (strLe · ·) (fs.children p))
    · exact hperm.symm.nodup (children_nodup fs p hwf)
    · have hlist : fs.listdir p = .ok (fs.children p) := by simp [FS.listdir, hd]
      have hitems : ((((fs.children p).insertionSort (strLe · ·)).map
          (fun item => if fs.isDir (p ++ [item]) then "[目录]  " ++ item ++ "/"
            else "[文件] " ++ item)).isEmpty) = false := by
        rcases heq : (fs.children p).insertionSort (strLe · ·) with _ | ⟨b, bs⟩
        · rw [heq] at hperm
          exact absurd (hperm.symm.eq_nil) hne
        · rfl
      unfold list_files
      split
      · next hfalse =>
        rw [hex] at hfalse
        exact absurd hfalse (by simp)
      · next =>
        rw [hlist]
        dsimp only
        split
        · next hcontra =>
          rw [hitems] at hcontra
          exact absurd hcontra (by simp)
        · next => rfl

/-- Witness for C8 on a directory holding a file `"b"` and a directory
`"a"`, listed in sorted order with their tags (plus the two other
branches, vacuous or not, at the same filesystem). -/
theorem list_files_spec_witness :
    (⟨[(["d", "b"], "x")], [[], ["d"], ["d", "a"]]⟩ : FS).wf ∧
    (((⟨[(["d", "b"], "x")], [[], ["d"], ["d", "a"]]⟩ : FS).pathExists ["d"] = false →
        list_files ["d"] ⟨[(["d", "b"], "x")], [[], ["d"], ["d", "a"]]⟩ =
          ("路径未找到: " ++ pathStr ["d"], ⟨[(["d", "b"], "x")], [[], ["d"], ["d", "a"]]⟩)) ∧
      ((⟨[(["d", "b"], "x")], [[], ["d"], ["d", "a"]]⟩ : FS).isDir ["d"] = true →
        (⟨[(["d", "b"], "x")], [[], ["d"], ["d", "a"]]⟩ : FS).children ["d"] = [] →
        list_files ["d"] ⟨[(["d", "b"], "x")], [[], ["d"], ["d", "a"]]⟩ =
          ("空目录: " ++ pathStr ["d"], ⟨[(["d", "b"], "x")], [[], ["d"], ["d", "a"]]⟩)) ∧
      ((⟨[(["d", "b"], "x")], [[], ["d"], ["d", "a"]]⟩ : FS).isDir ["d"] = true →
        (⟨[(["d", "b"], "x")], [[], ["d"], ["d", "a"]]⟩ : FS).children ["d"] ≠ [] →
        ∃ ns : List String, ns.Perm ((⟨[(["d", "b"], "x")], [[], ["d"], ["d", "a"]]⟩ : FS).children ["d"]) ∧
          ns.Sorted (· ≤ ·) ∧ ns.Nodup ∧
          list_files ["d"] ⟨[(["d", "b"], "x")], [[], ["d"], ["d", "a"]]⟩ =
            (pathStr ["d"] ++ " 的内容:\n" ++ String.intercalate "\n"
              (ns.map fun item =>
                if (⟨[(["d", "b"], "x")], [[], ["d"], ["d", "a"]]⟩ : FS).isDir (["d"] ++ [item])
                then "[目录]  " ++ item ++ "/"
                else "[文件] " ++ item),
             ⟨[(["d", "b"], "x")], [[], ["d"], ["d", "a"]]⟩))) :=
  ⟨by decide,
   list_files_spec ⟨[(["d", "b"], "x")], [[], ["d"], ["d", "a"]]⟩ ["d"] (by decide)⟩

end Agent
